import Mathlib

/-!
Verification development for the ODL excerpt: the concrete operators of
odl/operator/default.py (ScalingOperator, LinCombOperator, MultiplyOperator,
the operator and linear_operator factories) and the image conversion routine
of odl/contrib/datasets/images/cambridge.py (convert).

Modelling conventions:
* float64 scalars and pixels are modelled by exact rationals;
* a fallible Python call is modelled by Except String carrying the Python
  exception kind;
* a LinearSpace is modelled by a type V with a Module structure over the
  rationals; element operations that live in the (not excerpted) space code
  are modelled from the spec and marked as such;
* numpy arrays appearing in convert are modelled by the Img type below, and
  the in-place mutation of convert is additionally modelled by an explicit
  heap of arrays (convertHeap) to state the frame property.
-/

/-- ScalingOperator from default.py: scales a vector of the space V by a
fixed scalar. The constructor stores float(scalar); the space itself is the
type parameter V. -/
structure ScalingOperator (V : Type) where
  scal : ℚ

/-- Modelled from the spec: scalar multiplication of a LinearSpace element
(spec section 3, Element supports scalar multiply); the space code itself is
not part of the excerpt. -/
def scalarMul {V : Type} [AddCommMonoid V] [Module ℚ V] (c : ℚ) (x : V) : V :=
  c • x

/-- ScalingOperator._call: returns self._scal * inp. -/
def ScalingOperator.call {V : Type} [AddCommMonoid V] [Module ℚ V]
    (o : ScalingOperator V) (inp : V) : V :=
  scalarMul o.scal inp

/-- ScalingOperator.inverse: ScalingOperator(self._space, 1.0/self._scal).
In Python the division 1.0/0.0 raises ZeroDivisionError before the new
operator is constructed, so the result is fallible. -/
def ScalingOperator.inverse {V : Type} (o : ScalingOperator V) :
    Except String (ScalingOperator V) :=
  if o.scal = 0 then Except.error "ZeroDivisionError: float division by zero"
  else Except.ok ⟨1 / o.scal⟩

/-- LinCombOperator from default.py: outp = a*inp[0] + b*inp[1], with domain
the Cartesian product of the space with itself. -/
structure LinCombOperator (V : Type) where
  a : ℚ
  b : ℚ

/-- Modelled from the spec: the element operation outp.lincomb(a, x, b, y)
overwrites outp with a*x + b*y (spec section 3, Element supports in-place
linear combination); the space code itself is not part of the excerpt. -/
def lincomb {V : Type} [AddCommMonoid V] [Module ℚ V]
    (a : ℚ) (x : V) (b : ℚ) (y : V) : V :=
  a • x + b • y

/-- LinCombOperator._apply: outp.lincomb(self.a, inp[0], self.b, inp[1]).
The previous value of outp is overwritten, so the model returns the new
value of outp and ignores the old one. -/
def LinCombOperator.applyOp {V : Type} [AddCommMonoid V] [Module ℚ V]
    (o : LinCombOperator V) (inp : V × V) (outpOld : V) : V :=
  lincomb o.a inp.1 o.b inp.2

/-- MultiplyOperator from default.py: outp = inp[0] * inp[1] on an algebra,
with domain the Cartesian product of the space with itself. -/
structure MultiplyOperator (A : Type)

/-- Modelled from the spec: outp.assign(v) overwrites outp with a copy of v
(spec section 3, mutation through explicit assignment); the space code
itself is not part of the excerpt. -/
def assign {A : Type} (outpOld v : A) : A :=
  v

/-- Modelled from the spec: outp.multiply(v) overwrites outp with the
elementwise product of outp and v (spec sections 3 and 4.5); the space code
itself is not part of the excerpt. -/
def multiplyInPlace {A : Type} [Mul A] (outpOld v : A) : A :=
  outpOld * v

/-- MultiplyOperator._apply: outp.assign(inp[1]) followed by
outp.multiply(inp[0]). -/
def MultiplyOperator.applyOp {A : Type} [Mul A]
    (o : MultiplyOperator A) (inp : A × A) (outpOld : A) : A :=
  multiplyInPlace (assign outpOld inp.2) inp.1

/-- instance_method from default.py: wraps a possibly absent plain function
as a method. Calling the wrapper when the function is None fails only at
call time, with a TypeError. -/
def instance_method {α β : Type} (f : Option (α → β)) (x : α) :
    Except String β :=
  match f with
  | some g => Except.ok (g x)
  | none => Except.error "TypeError: NoneType object is not callable"

/-- The ad-hoc operator assembled by the operator factory: the supplied
call and apply primitives (apply is modelled as old-output to new-output),
the stored optional inverse and derivative, and the domain and range sets. -/
structure SimpleOperator (α β : Type) where
  callFn : Option (α → β)
  applyFn : Option (α → β → β)
  inv : Option (β → α)
  deriv : Option (α → β)
  dom : α → Prop
  ran : β → Prop

/-- The ad-hoc linear operator assembled by the linear_operator factory;
like SimpleOperator with an additional stored adjoint. -/
structure SimpleLinearOperator (α β : Type) where
  callFn : Option (α → β)
  applyFn : Option (α → β → β)
  inv : Option (β → α)
  deriv : Option (α → β)
  adj : Option (β → α)
  dom : α → Prop
  ran : β → Prop

/-- operator factory from default.py: raises ValueError when neither call
nor apply is supplied, otherwise assembles a SimpleOperator holding the
supplied members. -/
def operator {α β : Type} (call : Option (α → β)) (app : Option (α → β → β))
    (inv : Option (β → α)) (deriv : Option (α → β))
    (dom : α → Prop) (ran : β → Prop) : Except String (SimpleOperator α β) :=
  match call, app with
  | none, none =>
      Except.error "ValueError: Need to supply at least one of call or apply"
  | c, a => Except.ok ⟨c, a, inv, deriv, dom, ran⟩

/-- linear_operator factory from default.py: raises ValueError when neither
call nor apply is supplied, otherwise assembles a SimpleLinearOperator
holding the supplied members. -/
def linear_operator {α β : Type} (call : Option (α → β))
    (app : Option (α → β → β)) (inv : Option (β → α)) (deriv : Option (α → β))
    (adj : Option (β → α)) (dom : α → Prop) (ran : β → Prop) :
    Except String (SimpleLinearOperator α β) :=
  match call, app with
  | none, none =>
      Except.error "ValueError: Need to supply at least one of call or apply"
  | c, a => Except.ok ⟨c, a, inv, deriv, adj, dom, ran⟩

/-- Modelled from the spec: applying an operator uses the call primitive
when supplied and otherwise derives call from apply by allocating a fresh
range element (spec section 4.1); the base Operator class is not part of
the excerpt. The installed primitives are invoked through instance_method,
so an absent primitive fails only at call time. -/
def SimpleOperator.callOp {α β : Type} [Inhabited β]
    (o : SimpleOperator α β) (x : α) : Except String β :=
  if o.callFn.isSome then instance_method o.callFn x
  else
    match o.applyFn with
    | some g => Except.ok (g x default)
    | none => Except.error "TypeError: NoneType object is not callable"

/-- Rational-valued model of the numpy arrays reaching convert in
cambridge.py: a 2-dimensional array is a list of rows of pixels, a
3-dimensional array is a list of rows of pixels each holding a list of
color channels. Exact rationals stand in for float64 entries. -/
inductive Img where
  | d2 : List (List ℚ) → Img
  | d3 : List (List (List ℚ)) → Img
deriving DecidableEq

/-- Elementwise map over every entry of an array. -/
def Img.mapQ (f : ℚ → ℚ) : Img → Img
  | d2 rows => d2 (rows.map (List.map f))
  | d3 rows => d3 (rows.map (List.map (List.map f)))

/-- image.astype(dtype): elementwise dtype conversion producing a fresh
array; converting rational-modelled values to float64 keeps each entry. -/
def astype (image : Img) : Img :=
  image.mapQ (fun q => q)

/-- Concatenation of a list of rows into the flat list of entries. -/
def flat2 (rows : List (List ℚ)) : List ℚ :=
  rows.foldr (fun r acc => r ++ acc) []

/-- All entries of an array in a flat list (numpy raveling). -/
def Img.flattenQ : Img → List ℚ
  | d2 rows => flat2 rows
  | d3 rows => flat2 (rows.map flat2)

/-- image[..., i] *= w: scale index i along the last axis in place. On a
3-dimensional array this scales channel i of every pixel; on a
2-dimensional array it scales entry i of every row. numpy raises
IndexError when the last axis has no index i. -/
def scaleLast (i : ℕ) (w : ℚ) : Img → Except String Img
  | .d2 rows =>
      if rows.all (fun r => i < r.length) then
        Except.ok (.d2 (rows.map (fun r => r.set i (r.getD i 0 * w))))
      else Except.error "IndexError: index out of bounds for the last axis"
  | .d3 rows =>
      if rows.all (fun r => r.all (fun p => i < p.length)) then
        Except.ok (.d3 (rows.map (fun r =>
          r.map (fun p => p.set i (p.getD i 0 * w)))))
      else Except.error "IndexError: index out of bounds for the last axis"

/-- np.sum(image, axis=2): sums away the channel axis of a 3-dimensional
array; a 2-dimensional array has no axis 2 and numpy raises an AxisError. -/
def sumAxis2 : Img → Except String Img
  | .d2 _ =>
      Except.error "AxisError: axis 2 is out of bounds for array of dimension 2"
  | .d3 rows => Except.ok (.d2 (rows.map (fun r => r.map List.sum)))

/-- image.max(): largest entry; numpy raises ValueError on an empty array. -/
def npmax (image : Img) : Except String ℚ :=
  match image.flattenQ with
  | [] => Except.error "ValueError: zero-size array to reduction operation"
  | x :: xs => Except.ok (xs.foldl max x)

/-- image.sum(): total of all entries (0 on an empty array). -/
def npsum (image : Img) : ℚ :=
  image.flattenQ.sum

/-- The gray branch of convert: weight the first three channels by the
luminance coefficients in place, then sum over axis 2. -/
def grayStepF (image : Img) : Except String Img :=
  match scaleLast 0 0.2126 image with
  | .error e => .error e
  | .ok i1 =>
    match scaleLast 1 0.7152 i1 with
    | .error e => .error e
    | .ok i2 =>
      match scaleLast 2 0.0722 i2 with
      | .error e => .error e
      | .ok i3 => sumAxis2 i3

/-- The normalization tail of convert: divide in place by the maximum for
normalize == "max", by the total sum for normalize == "sum"; any other
mode hits assert False, an AssertionError. -/
def normalizeStep (normalize : String) (image : Img) : Except String Img :=
  if normalize = "max" then
    match npmax image with
    | .error e => .error e
    | .ok m => Except.ok (image.mapQ (fun q => q / m))
  else if normalize = "sum" then
    Except.ok (image.mapQ (fun q => q / npsum image))
  else Except.error "AssertionError"

/-- convert from cambridge.py, value level: astype copy, optional gray
conversion, optional resize (imresize is the external scipy collaborator,
passed as the function argument f, followed by astype), normalization.
The dtype argument is fixed at float64 and is the identity on the
rational-modelled entries. -/
def convert (f : Img → ℕ × ℕ → Img) (image : Img) (shape : Option (ℕ × ℕ))
    (gray : Bool) (normalize : String) : Except String Img :=
  match (if gray then grayStepF (astype image) else Except.ok (astype image)) with
  | .error e => .error e
  | .ok image2 =>
      normalizeStep normalize
        (match shape with
         | some sh => astype (f image2 sh)
         | none => image2)

/-- A heap of arrays: convert's in-place mutations are modelled explicitly
on it, a cell per numpy array, so the caller's array can be watched. -/
abbrev Heap := List Img

/-- Read the array stored in cell i. -/
def hget : Heap → ℕ → Img
  | [], _ => Img.d2 []
  | v :: _, 0 => v
  | _ :: t, i + 1 => hget t i

/-- Overwrite cell i in place (no effect outside the heap). -/
def hset : Heap → ℕ → Img → Heap
  | [], _, _ => []
  | _ :: t, 0, v => v :: t
  | a :: t, i + 1, v => a :: hset t i v

/-- The gray branch of convert on the heap: the three channel scalings
mutate the working cell r in place, then np.sum allocates a fresh array. -/
def grayStepHeap (h : Heap) (r : ℕ) : Except String (Heap × ℕ) :=
  match scaleLast 0 0.2126 (hget h r) with
  | .error e => .error e
  | .ok v1 =>
    match scaleLast 1 0.7152 (hget (hset h r v1) r) with
    | .error e => .error e
    | .ok v2 =>
      match scaleLast 2 0.0722 (hget (hset (hset h r v1) r v2) r) with
      | .error e => .error e
      | .ok v3 =>
        match sumAxis2 (hget (hset (hset (hset h r v1) r v2) r v3) r) with
        | .error e => .error e
        | .ok s =>
            Except.ok (hset (hset (hset h r v1) r v2) r v3 ++ [s],
              (hset (hset (hset h r v1) r v2) r v3).length)

/-- convert from cambridge.py on the heap: the caller's array sits in cell
inp; image.astype allocates the working copy, the gray scalings and the
final normalization mutate the working cell in place, np.sum and the
resize-plus-astype steps allocate fresh cells. Returns the final heap and the
cell of the returned array. -/
def convertHeap (f : Img → ℕ × ℕ → Img) (h : Heap) (inp : ℕ)
    (shape : Option (ℕ × ℕ)) (gray : Bool) (normalize : String) :
    Except String (Heap × ℕ) :=
  match (if gray then grayStepHeap (h ++ [astype (hget h inp)]) h.length
         else Except.ok (h ++ [astype (hget h inp)], h.length)) with
  | .error e => .error e
  | .ok (h2, r2) =>
      match (match shape with
             | some sh => (h2 ++ [astype (f (hget h2 r2) sh)], h2.length)
             | none => (h2, r2)) with
      | (h3, r3) =>
          match normalizeStep normalize (hget h3 r3) with
          | .error e => .error e
          | .ok out => Except.ok (hset h3 r3 out, r3)

/-- C1: for every linear space V, every scalar c with c not zero and every
element x, applying the inverse of ScalingOperator(V, c) after the operator
returns x, and applying the operator after the inverse also returns x. -/
theorem scaling_inverse_roundtrip {V : Type} [AddCommMonoid V] [Module ℚ V]
    (c : ℚ) (hc : c ≠ 0) (x : V) :
    ∃ invOp : ScalingOperator V,
      ScalingOperator.inverse ⟨c⟩ = Except.ok invOp ∧
      invOp.call (ScalingOperator.call ⟨c⟩ x) = x ∧
      ScalingOperator.call ⟨c⟩ (invOp.call x) = x := by
  refine ⟨⟨1 / c⟩, ?_, ?_, ?_⟩
  · simp [ScalingOperator.inverse, hc]
  · show (1 / c) • (c • x) = x
    rw [smul_smul, one_div_mul_cancel hc, one_smul]
  · show c • ((1 / c) • x) = x
    rw [smul_smul, mul_one_div_cancel hc, one_smul]

/-- Witness for C1 at the space of rationals, c = 2, x = 3. -/
theorem scaling_inverse_roundtrip_witness :
    ∃ invOp : ScalingOperator ℚ,
      ScalingOperator.inverse ⟨2⟩ = Except.ok invOp ∧
      invOp.call (ScalingOperator.call ⟨2⟩ (3 : ℚ)) = 3 ∧
      ScalingOperator.call ⟨2⟩ (invOp.call (3 : ℚ)) = 3 :=
  scaling_inverse_roundtrip 2 (by decide) 3

/-- C2: the inverse of a ScalingOperator with scalar c is the
ScalingOperator with scalar 1/c, and for c = 0 accessing the inverse is a
ZeroDivisionError rather than a silently returned operator. -/
theorem scaling_inverse_value_and_zero_error (V : Type) (c : ℚ) :
    (c ≠ 0 → ScalingOperator.inverse (V := V) ⟨c⟩ = Except.ok ⟨1 / c⟩) ∧
    (c = 0 → ScalingOperator.inverse (V := V) ⟨c⟩ =
      Except.error "ZeroDivisionError: float division by zero") := by
  constructor
  · intro hc
    simp [ScalingOperator.inverse, hc]
  · intro hc
    simp [ScalingOperator.inverse, hc]

/-- Witness for C2 at c = 2 and at c = 0 over the space of rationals. -/
theorem scaling_inverse_value_and_zero_error_witness :
    ScalingOperator.inverse (V := ℚ) ⟨2⟩ = Except.ok ⟨1 / 2⟩ ∧
    ScalingOperator.inverse (V := ℚ) ⟨0⟩ =
      Except.error "ZeroDivisionError: float division by zero" :=
  ⟨(scaling_inverse_value_and_zero_error ℚ 2).1 (by decide),
   (scaling_inverse_value_and_zero_error ℚ 0).2 rfl⟩

/-- C3: LinCombOperator(V, a, b) applied to the pair (x0, x1) stores
a*x0 + b*x1 into the output, and with a = b = 1 on the pair (x, x) the
output is 2*x. -/
theorem lincomb_apply_formula {V : Type} [AddCommMonoid V] [Module ℚ V]
    (a b : ℚ) (x0 x1 y : V) :
    LinCombOperator.applyOp ⟨a, b⟩ (x0, x1) y = a • x0 + b • x1 ∧
    LinCombOperator.applyOp (V := V) ⟨1, 1⟩ (x0, x0) y = (2 : ℚ) • x0 := by
  constructor
  · rfl
  · show (1 : ℚ) • x0 + (1 : ℚ) • x0 = (2 : ℚ) • x0
    rw [one_smul, two_smul]

/-- C4: MultiplyOperator applied to the pair (x, y) stores the elementwise
product of x and y into the output (the code assigns y and multiplies by x,
which equals x * y since the algebra multiplication is commutative). -/
theorem multiply_apply_product {A : Type} [CommMonoid A] (x y z : A) :
    MultiplyOperator.applyOp ⟨⟩ (x, y) z = x * y := by
  show y * x = x * y
  exact mul_comm y x

/-- C5: the ad-hoc operator built by the factory with only a call function
satisfies operator(call = f)(x) = f(x). -/
theorem operator_factory_call_eq {α β : Type} [Inhabited β] (f : α → β)
    (inv : Option (β → α)) (deriv : Option (α → β))
    (dom : α → Prop) (ran : β → Prop) (x : α) :
    ∃ o : SimpleOperator α β,
      operator (some f) none inv deriv dom ran = Except.ok o ∧
      o.callOp x = Except.ok (f x) :=
  ⟨⟨some f, none, inv, deriv, dom, ran⟩, rfl, rfl⟩

/-- C6: calling either factory with neither a call function nor an apply
function raises ValueError and returns no operator. -/
theorem factories_require_call_or_apply {α β : Type}
    (inv : Option (β → α)) (deriv : Option (α → β)) (adj : Option (β → α))
    (dom : α → Prop) (ran : β → Prop) :
    operator none none inv deriv dom ran =
      Except.error "ValueError: Need to supply at least one of call or apply" ∧
    linear_operator none none inv deriv adj dom ran =
      Except.error "ValueError: Need to supply at least one of call or apply" :=
  ⟨rfl, rfl⟩

/-- Mapping the identity over the entries of an array returns it intact. -/
theorem astype_id (image : Img) : astype image = image := by
  cases image with
  | d2 rows =>
      show Img.d2 (rows.map (List.map (fun q => q))) = Img.d2 rows
      congr 1
      induction rows with
      | nil => rfl
      | cons r t ih => simp [List.map_id', ih]
  | d3 rows =>
      show Img.d3 (rows.map (List.map (List.map (fun q => q)))) = Img.d3 rows
      congr 1
      induction rows with
      | nil => rfl
      | cons r t ih =>
          simp only [List.map_cons, ih, List.cons.injEq, and_true]
          induction r with
          | nil => rfl
          | cons p t2 ih2 => simp [List.map_id', ih2]

theorem flat2_cons (r : List ℚ) (t : List (List ℚ)) :
    flat2 (r :: t) = r ++ flat2 t := rfl

theorem flat2_map (f : ℚ → ℚ) (rows : List (List ℚ)) :
    flat2 (rows.map (List.map f)) = (flat2 rows).map f := by
  induction rows with
  | nil => rfl
  | cons r t ih => simp [flat2_cons, ih]

/-- Flattening commutes with the elementwise map. -/
theorem flattenQ_mapQ (f : ℚ → ℚ) (image : Img) :
    (Img.mapQ f image).flattenQ = image.flattenQ.map f := by
  cases image with
  | d2 rows =>
      show flat2 (rows.map (List.map f)) = (flat2 rows).map f
      exact flat2_map f rows
  | d3 rows =>
      show flat2 ((rows.map (List.map (List.map f))).map flat2)
        = (flat2 (rows.map flat2)).map f
      rw [List.map_map]
      have hcomp : (flat2 ∘ List.map (List.map f)) = (List.map f ∘ flat2) :=
        funext fun r => flat2_map f r
      rw [hcomp, ← List.map_map, flat2_map]

theorem max_div_of_pos (a b m : ℚ) (hm : 0 < m) :
    max (a / m) (b / m) = max a b / m := by
  rcases le_total a b with hab | hab
  · rw [max_eq_right hab, max_eq_right ((div_le_div_right hm).mpr hab)]
  · rw [max_eq_left hab, max_eq_left ((div_le_div_right hm).mpr hab)]

theorem foldl_max_div (m : ℚ) (hm : 0 < m) (xs : List ℚ) :
    ∀ x : ℚ, (xs.map (fun q => q / m)).foldl max (x / m)
      = xs.foldl max x / m := by
  induction xs with
  | nil => intro x; rfl
  | cons y t ih =>
      intro x
      simp only [List.map_cons, List.foldl_cons]
      rw [max_div_of_pos x y m hm]
      exact ih (max x y)

/-- Dividing every entry by the (positive) maximum makes the maximum 1. -/
theorem npmax_div_self (image : Img) (m : ℚ) (hm : 0 < m)
    (hmax : npmax image = Except.ok m) :
    npmax (image.mapQ (fun q => q / m)) = Except.ok 1 := by
  unfold npmax at hmax ⊢
  rw [flattenQ_mapQ]
  cases hflat : image.flattenQ with
  | nil => rw [hflat] at hmax; exact absurd hmax (by simp)
  | cons x xs =>
      rw [hflat] at hmax
      simp only [Except.ok.injEq] at hmax
      simp only [List.map_cons]
      rw [foldl_max_div m hm xs x, hmax, div_self (ne_of_gt hm)]

theorem sum_map_div (m : ℚ) (xs : List ℚ) :
    (xs.map (fun q => q / m)).sum = xs.sum / m := by
  induction xs with
  | nil => simp
  | cons y t ih => simp [List.sum_cons, ih, add_div]

/-- Dividing every entry by the total sum divides the total sum out. -/
theorem npsum_mapQ_div (image : Img) (m : ℚ) :
    npsum (image.mapQ (fun q => q / m)) = npsum image / m := by
  unfold npsum
  rw [flattenQ_mapQ, sum_map_div]

/-- C7 (amended): with no reshaping and no gray conversion, convert with
normalize "max" on an image whose maximum is positive returns the image
divided by that maximum, whose maximum is exactly 1; and convert with
normalize "sum" on an image whose total sum is nonzero returns the image
divided by that sum, whose total sum is exactly 1. -/
theorem convert_normalize_unit (f : Img → ℕ × ℕ → Img) (image : Img) :
    (∀ m : ℚ, npmax image = Except.ok m → 0 < m →
      convert f image none false "max"
          = Except.ok (image.mapQ (fun q => q / m)) ∧
      npmax (image.mapQ (fun q => q / m)) = Except.ok 1) ∧
    (npsum image ≠ 0 →
      convert f image none false "sum"
          = Except.ok (image.mapQ (fun q => q / npsum image)) ∧
      npsum (image.mapQ (fun q => q / npsum image)) = 1) := by
  constructor
  · intro m hm hmpos
    refine ⟨?_, npmax_div_self image m hmpos hm⟩
    show normalizeStep "max" (astype image) = _
    rw [astype_id]
    simp [normalizeStep, hm]
  · intro hs
    refine ⟨?_, by rw [npsum_mapQ_div, div_self hs]⟩
    show normalizeStep "sum" (astype image) = _
    rw [astype_id]
    simp [normalizeStep]

/-- Witness for C7 (amended) at the one-pixel image with value 4. -/
theorem convert_normalize_unit_witness :
    (convert (fun i _ => i) (Img.d2 [[4]]) none false "max"
        = Except.ok ((Img.d2 [[4]]).mapQ (fun q => q / 4)) ∧
      npmax ((Img.d2 [[4]]).mapQ (fun q => q / 4)) = Except.ok 1) ∧
    (convert (fun i _ => i) (Img.d2 [[4]]) none false "sum"
        = Except.ok ((Img.d2 [[4]]).mapQ (fun q => q / npsum (Img.d2 [[4]]))) ∧
      npsum ((Img.d2 [[4]]).mapQ (fun q => q / npsum (Img.d2 [[4]]))) = 1) :=
  ⟨(convert_normalize_unit (fun i _ => i) (Img.d2 [[4]])).1 4 rfl (by decide),
   (convert_normalize_unit (fun i _ => i) (Img.d2 [[4]])).2
     (by simp [npsum, Img.flattenQ, flat2])⟩

/-- C7 counterexample: on the all-zero one-pixel image, convert with
normalize "max" succeeds but the returned array's maximum is 0, not 1, so
the claim does not hold for every input image. -/
theorem convert_normalize_max_counterexample :
    ¬ ∃ out : Img,
        convert (fun i _ => i) (Img.d2 [[0]]) none false "max"
          = Except.ok out ∧
        npmax out = Except.ok 1 := by
  rintro ⟨out, h1, h2⟩
  have hc : convert (fun i _ => i) (Img.d2 [[0]]) none false "max"
      = Except.ok (Img.d2 [[0 / 0]]) := rfl
  rw [hc] at h1
  have hout : Img.d2 [[0 / 0]] = out := Except.ok.inj h1
  rw [← hout] at h2
  have hmax0 : npmax (Img.d2 [[0 / 0]]) = Except.ok 0 := by
    simp [npmax, Img.flattenQ, flat2]
  rw [hmax0] at h2
  exact absurd (Except.ok.inj h2) (by decide)

/-- C8: for every input image and every normalization mode other than
"max" and "sum", convert fails (the assert False branch) rather than
returning an array. -/
theorem convert_unknown_normalize_fails (f : Img → ℕ × ℕ → Img) (image : Img)
    (shape : Option (ℕ × ℕ)) (gray : Bool) (normalize : String)
    (h1 : normalize ≠ "max") (h2 : normalize ≠ "sum") :
    ∃ e, convert f image shape gray normalize = Except.error e := by
  unfold convert
  cases hg : (if gray then grayStepF (astype image)
              else Except.ok (astype image)) with
  | error e => exact ⟨e, rfl⟩
  | ok image2 =>
      refine ⟨"AssertionError", ?_⟩
      simp [normalizeStep, h1, h2]

/-- Witness for C8 at the unsupported mode "foo". -/
theorem convert_unknown_normalize_fails_witness :
    ∃ e, convert (fun i _ => i) (Img.d2 [[1]]) none false "foo"
      = Except.error e :=
  convert_unknown_normalize_fails (fun i _ => i) (Img.d2 [[1]]) none false
    "foo" (by decide) (by decide)

/-- The gray branch always fails on a 2-dimensional array: the channel
scalings either hit an IndexError or leave a 2-dimensional array, and the
sum over axis 2 is then an AxisError. -/
theorem scaleLast_d2_ok (i : ℕ) (w : ℚ) (rows : List (List ℚ)) (v : Img)
    (h : scaleLast i w (Img.d2 rows) = Except.ok v) :
    ∃ rows2, v = Img.d2 rows2 := by
  revert h
  simp only [scaleLast]
  split
  · intro h
    exact ⟨_, (Except.ok.inj h).symm⟩
  · intro h
    cases h

theorem grayStepF_d2_error (rows : List (List ℚ)) :
    ∃ e, grayStepF (Img.d2 rows) = Except.error e := by
  unfold grayStepF
  cases hs0 : scaleLast 0 0.2126 (Img.d2 rows) with
  | error e => exact ⟨e, rfl⟩
  | ok v1 =>
      obtain ⟨rows1, rfl⟩ := scaleLast_d2_ok _ _ _ _ hs0
      dsimp only
      cases hs1 : scaleLast 1 0.7152 (Img.d2 rows1) with
      | error e => exact ⟨e, rfl⟩
      | ok v2 =>
          obtain ⟨rows2, rfl⟩ := scaleLast_d2_ok _ _ _ _ hs1
          dsimp only
          cases hs2 : scaleLast 2 0.0722 (Img.d2 rows2) with
          | error e => exact ⟨e, rfl⟩
          | ok v3 =>
              obtain ⟨rows3, rfl⟩ := scaleLast_d2_ok _ _ _ _ hs2
              dsimp only
              exact ⟨_, rfl⟩

/-- C10: convert with gray = True fails on every 2-dimensional (already
grayscale) input image, whatever the shape and normalization arguments. -/
theorem convert_gray_on_2d_fails (f : Img → ℕ × ℕ → Img)
    (rows : List (List ℚ)) (shape : Option (ℕ × ℕ)) (normalize : String) :
    ∃ e, convert f (Img.d2 rows) shape true normalize = Except.error e := by
  obtain ⟨e, he⟩ := grayStepF_d2_error rows
  refine ⟨e, ?_⟩
  unfold convert
  rw [if_pos rfl, astype_id, he]

theorem hget_hset_self (h : Heap) (r : ℕ) (v : Img) (hr : r < h.length) :
    hget (hset h r v) r = v := by
  induction h generalizing r with
  | nil => cases hr
  | cons a t ih =>
      cases r with
      | zero => rfl
      | succ n => exact ih n (Nat.lt_of_succ_lt_succ hr)

theorem hget_hset_ne (h : Heap) (r i : ℕ) (v : Img) (hne : i ≠ r) :
    hget (hset h r v) i = hget h i := by
  induction h generalizing r i with
  | nil => rfl
  | cons a t ih =>
      cases r with
      | zero =>
          cases i with
          | zero => exact absurd rfl hne
          | succ j => rfl
      | succ n =>
          cases i with
          | zero => rfl
          | succ j => exact ih n j (fun hh => hne (by rw [hh]))

theorem hset_length (h : Heap) (r : ℕ) (v : Img) :
    (hset h r v).length = h.length := by
  induction h generalizing r with
  | nil => rfl
  | cons a t ih =>
      cases r with
      | zero => rfl
      | succ n => simp [hset, ih]

theorem hget_append_self (h : Heap) (v : Img) : hget (h ++ [v]) h.length = v := by
  induction h with
  | nil => rfl
  | cons a t ih => exact ih

theorem hget_append_lt (h : Heap) (v : Img) (i : ℕ) (hi : i < h.length) :
    hget (h ++ [v]) i = hget h i := by
  induction h generalizing i with
  | nil => cases hi
  | cons a t ih =>
      cases i with
      | zero => rfl
      | succ j => exact ih j (Nat.lt_of_succ_lt_succ hi)

/-- Behaviour of the heap-level gray branch: it fails exactly when the
value-level gray branch fails, and on success it returns a fresh cell
holding the value-level result, one past the old heap, leaving every cell
other than the working cell r unchanged. -/
theorem grayStepHeap_spec (h : Heap) (r : ℕ) (hr : r < h.length) :
    (∀ e, grayStepHeap h r = Except.error e ↔
      grayStepF (hget h r) = Except.error e) ∧
    (∀ h2 r2, grayStepHeap h r = Except.ok (h2, r2) →
      r2 = h.length ∧ h2.length = h.length + 1 ∧
      grayStepF (hget h r) = Except.ok (hget h2 r2) ∧
      ∀ i, i < h.length → i ≠ r → hget h2 i = hget h i) := by
  unfold grayStepHeap grayStepF
  cases e0 : scaleLast 0 0.2126 (hget h r) with
  | error e => refine ⟨?_, ?_⟩ <;> simp
  | ok v1 =>
      dsimp only
      rw [hget_hset_self h r v1 hr]
      cases e1 : scaleLast 1 0.7152 v1 with
      | error e => refine ⟨?_, ?_⟩ <;> simp
      | ok v2 =>
          dsimp only
          rw [hget_hset_self _ r v2 (by rw [hset_length]; exact hr)]
          cases e2 : scaleLast 2 0.0722 v2 with
          | error e => refine ⟨?_, ?_⟩ <;> simp
          | ok v3 =>
              dsimp only
              rw [hget_hset_self _ r v3
                (by rw [hset_length, hset_length]; exact hr)]
              cases e3 : sumAxis2 v3 with
              | error e => refine ⟨?_, ?_⟩ <;> simp
              | ok s =>
                  refine ⟨by simp, ?_⟩
                  rintro h2 r2 heq
                  injection heq with hpq
                  injection hpq with hA hB
                  subst hA
                  subst hB
                  refine ⟨by simp [hset_length], by simp [hset_length], ?_, ?_⟩
                  · rw [hget_append_self]
                  · intro i hi hine
                    rw [hget_append_lt _ _ i (by simp [hset_length, hi]),
                      hget_hset_ne _ r i v3 hine, hget_hset_ne _ r i v2 hine,
                      hget_hset_ne _ r i v1 hine]

/-- Value of the reshape-and-normalize tail of convertHeap: it matches the
value-level tail of convert on the value in the working cell. -/
theorem norm_tail_value (f : Img → ℕ × ℕ → Img) (shape : Option (ℕ × ℕ))
    (normalize : String) (h2 : Heap) (r2 : ℕ) (hr2 : r2 < h2.length) :
    Except.map (fun p : Heap × ℕ => hget p.1 p.2)
      (match (match shape with
              | some sh => (h2 ++ [astype (f (hget h2 r2) sh)], h2.length)
              | none => (h2, r2)) with
       | (h3, r3) =>
         match normalizeStep normalize (hget h3 r3) with
         | .error e => .error e
         | .ok out => Except.ok (hset h3 r3 out, r3))
      = normalizeStep normalize
          (match shape with
           | some sh => astype (f (hget h2 r2) sh)
           | none => hget h2 r2) := by
  cases shape with
  | none =>
      dsimp only
      cases hn : normalizeStep normalize (hget h2 r2) with
      | error e => rfl
      | ok out =>
          show Except.ok (hget (hset h2 r2 out) r2) = Except.ok out
          rw [hget_hset_self h2 r2 out hr2]
  | some sh =>
      dsimp only
      rw [hget_append_self h2 (astype (f (hget h2 r2) sh))]
      cases hn : normalizeStep normalize (astype (f (hget h2 r2) sh)) with
      | error e => rfl
      | ok out =>
          show Except.ok
              (hget (hset (h2 ++ [astype (f (hget h2 r2) sh)]) h2.length out)
                h2.length)
            = Except.ok out
          rw [hget_hset_self _ h2.length out (by simp)]

/-- Frame of the reshape-and-normalize tail of convertHeap: on success, a
cell below the heap end and different from the working cell is unchanged. -/
theorem norm_tail_frame (f : Img → ℕ × ℕ → Img) (shape : Option (ℕ × ℕ))
    (normalize : String) (h2 : Heap) (r2 inp : ℕ)
    (hinp : inp < h2.length) (hne : inp ≠ r2) :
    ∀ hf rf,
      (match (match shape with
              | some sh => (h2 ++ [astype (f (hget h2 r2) sh)], h2.length)
              | none => (h2, r2)) with
       | (h3, r3) =>
         match normalizeStep normalize (hget h3 r3) with
         | .error e => .error e
         | .ok out => Except.ok (hset h3 r3 out, r3)) = Except.ok (hf, rf) →
      hget hf inp = hget h2 inp := by
  intro hf rf heq
  cases shape with
  | none =>
      dsimp only at heq
      cases hn : normalizeStep normalize (hget h2 r2) with
      | error e => rw [hn] at heq; cases heq
      | ok out =>
          rw [hn] at heq
          injection heq with hpq
          injection hpq with hA hB
          rw [← hA, hget_hset_ne h2 r2 inp out hne]
  | some sh =>
      dsimp only at heq
      cases hn : normalizeStep normalize
          (hget (h2 ++ [astype (f (hget h2 r2) sh)]) h2.length) with
      | error e => rw [hn] at heq; cases heq
      | ok out =>
          rw [hn] at heq
          injection heq with hpq
          injection hpq with hA hB
          rw [← hA, hget_hset_ne _ h2.length inp out (Nat.ne_of_lt hinp),
            hget_append_lt h2 _ inp hinp]

/-- The value returned by the heap-level convert is exactly the value-level
convert of the caller's array, errors included. -/
theorem convertHeap_value (f : Img → ℕ × ℕ → Img) (h : Heap) (inp : ℕ)
    (shape : Option (ℕ × ℕ)) (gray : Bool) (normalize : String)
    (hin : inp < h.length) :
    Except.map (fun p : Heap × ℕ => hget p.1 p.2)
        (convertHeap f h inp shape gray normalize)
      = convert f (hget h inp) shape gray normalize := by
  unfold convertHeap convert
  cases gray with
  | false =>
      rw [if_neg Bool.false_ne_true, if_neg Bool.false_ne_true]
      dsimp only
      have hv := hget_append_self h (astype (hget h inp))
      have hval := norm_tail_value f shape normalize
        (h ++ [astype (hget h inp)]) h.length (by simp)
      rw [hv] at hval
      rw [hv]
      exact hval
  | true =>
      rw [if_pos rfl, if_pos rfl]
      have hr1 : h.length < (h ++ [astype (hget h inp)]).length := by simp
      have hspec := grayStepHeap_spec (h ++ [astype (hget h inp)]) h.length hr1
      have hv := hget_append_self h (astype (hget h inp))
      cases hS : grayStepHeap (h ++ [astype (hget h inp)]) h.length with
      | error e =>
          have hF : grayStepF (astype (hget h inp)) = Except.error e := by
            have hiff := (hspec.1 e).mp hS
            rwa [hv] at hiff
          rw [hF]
          rfl
      | ok p =>
          obtain ⟨h2, r2⟩ := p
          obtain ⟨hr2eq, hlen2, hFok, hframe⟩ := hspec.2 h2 r2 hS
          rw [hv] at hFok
          rw [hFok]
          dsimp only
          have hr2 : r2 < h2.length := by
            rw [hr2eq, hlen2]
            exact Nat.lt_succ_self _
          exact norm_tail_value f shape normalize h2 r2 hr2

/-- On success, the heap-level convert leaves the caller's cell unchanged:
every mutation happens on the freshly allocated astype copy or on arrays
allocated later. -/
theorem convertHeap_frame (f : Img → ℕ × ℕ → Img) (h : Heap) (inp : ℕ)
    (shape : Option (ℕ × ℕ)) (gray : Bool) (normalize : String)
    (hin : inp < h.length) :
    ∀ hf rf, convertHeap f h inp shape gray normalize = Except.ok (hf, rf) →
      hget hf inp = hget h inp := by
  intro hf rf heq
  unfold convertHeap at heq
  cases gray with
  | false =>
      rw [if_neg Bool.false_ne_true] at heq
      dsimp only at heq
      have hfr := norm_tail_frame f shape normalize
        (h ++ [astype (hget h inp)]) h.length inp
        (by simp; omega) (Nat.ne_of_lt hin) hf rf heq
      rw [hget_append_lt h _ inp hin] at hfr
      exact hfr
  | true =>
      rw [if_pos rfl] at heq
      have hr1 : h.length < (h ++ [astype (hget h inp)]).length := by simp
      have hspec := grayStepHeap_spec (h ++ [astype (hget h inp)]) h.length hr1
      cases hS : grayStepHeap (h ++ [astype (hget h inp)]) h.length with
      | error e => rw [hS] at heq; cases heq
      | ok p =>
          obtain ⟨h2, r2⟩ := p
          rw [hS] at heq
          dsimp only at heq
          obtain ⟨hr2eq, hlen2, hFok, hframe⟩ := hspec.2 h2 r2 hS
          have hA : (h ++ [astype (hget h inp)]).length = h.length + 1 := by
            simp
          have hinp2 : inp < h2.length := by omega
          have hne2 : inp ≠ r2 := by omega
          have hfr := norm_tail_frame f shape normalize h2 r2 inp
            hinp2 hne2 hf rf heq
          rw [hfr, hframe inp (by omega) (Nat.ne_of_lt hin),
            hget_append_lt h _ inp hin]

/-- C9: convert is a pure transform. On the heap model, a successful run
leaves the caller's input array (cell inp) unchanged, because all in-place
channel weighting, summing and normalization act on the astype copy and on
later allocations; and the value returned equals the value-level convert
of the input array alone, so two calls on equal arguments return equal
results. -/
theorem convert_pure_frame (f : Img → ℕ × ℕ → Img) (h : Heap) (inp : ℕ)
    (shape : Option (ℕ × ℕ)) (gray : Bool) (normalize : String)
    (hin : inp < h.length) :
    (∀ hf rf, convertHeap f h inp shape gray normalize = Except.ok (hf, rf) →
       hget hf inp = hget h inp) ∧
    Except.map (fun p : Heap × ℕ => hget p.1 p.2)
        (convertHeap f h inp shape gray normalize)
      = convert f (hget h inp) shape gray normalize :=
  ⟨convertHeap_frame f h inp shape gray normalize hin,
   convertHeap_value f h inp shape gray normalize hin⟩

/-- Witness for C9 on a one-cell heap holding a 1 by 2 image. -/
theorem convert_pure_frame_witness :
    (∀ hf rf, convertHeap (fun i _ => i) [Img.d2 [[1, 2]]] 0 none false "max"
        = Except.ok (hf, rf) →
       hget hf 0 = hget [Img.d2 [[1, 2]]] 0) ∧
    Except.map (fun p : Heap × ℕ => hget p.1 p.2)
        (convertHeap (fun i _ => i) [Img.d2 [[1, 2]]] 0 none false "max")
      = convert (fun i _ => i) (hget [Img.d2 [[1, 2]]] 0) none false "max" :=
  convert_pure_frame (fun i _ => i) [Img.d2 [[1, 2]]] 0 none false "max"
    (by decide)
